import Mathlib

/-!
Verification development for the rankinator repository: a Glicko-2 rating
update engine (`calculateNewStats` in `src/utils/math.ts`), a matchmaking
selector (`getNextMatchup` in `src/utils/matchmaking.ts`) and the per-match
driver (`processMatch` in `src/utils/rankingSystem.ts`).

Modelling conventions.
JavaScript numbers are modelled as exact real numbers for the rating engine,
and the matchmaker (which only compares, subtracts, filters and sorts) is
modelled polymorphically over a linear ordered ring, so that its theorems
cover the real-valued executions while concrete instances can be evaluated
over `ℤ`.
`Math.random()` draws are modelled by oracle naturals `rA`, `rB`: the code
computes `Math.floor(Math.random() * n)`, an arbitrary index in `[0, n)`,
which we model as `r % n`.  The two unbounded `while` loops of the volatility
solver are modelled by structural recursion on a `fuel` parameter that is
universally quantified in every theorem; when fuel runs out the current loop
state is returned, so any terminating run of the source loop is the value of
the model at every sufficiently large fuel, and loop-invariant style theorems
proved for all fuel apply to it.  JavaScript array accesses `xs[i]` that can
produce `undefined` are modelled with `Option`.
-/

namespace Rankinator

/-- Item record from `src/types.ts`: identity fields plus Glicko-2 stats
(`rating`, `rd`, `vol`) and the number of comparisons played.  The source
field is called `matches`, which is a reserved token in Lean, so it is named
`matchCount` here (the spec's name for it).  The numeric type is a parameter
(see the modelling conventions above). -/
structure RankedItem (α : Type) where
  id : String
  name : String
  image : Option String
  rating : α
  rd : α
  vol : α
  matchCount : Nat
deriving DecidableEq

section Matchmaker

variable {α : Type} [LinearOrderedRing α]

/-- The comparator of `sortedByNeed` in `getNextMatchup`
(`src/utils/matchmaking.ts` lines 9-14): ascending `matches`; on equal
`matches`, descending `rd`.  A JavaScript stable sort with comparator `cmp`
places `a` no later than `b` exactly when `cmp a b ≤ 0`, which is this
Boolean relation.  Stable sorting with such a comparator is modelled by
`List.insertionSort`, which is a stable sort. -/
def needLE (a b : RankedItem α) : Bool :=
  if a.matchCount = b.matchCount then decide (b.rd ≤ a.rd) else decide (a.matchCount ≤ b.matchCount)

/-- The comparator of the fallback sort in `getNextMatchup` (lines 30-34):
ascending absolute rating difference to the already chosen competitor `c`. -/
def closeSortLE (c : RankedItem α) (a b : RankedItem α) : Bool :=
  decide (|a.rating - c.rating| ≤ |b.rating - c.rating|)

/-- `sortedByNeed` from `getNextMatchup` line 9: the pool stably sorted by
need. -/
def sortedByNeed (items : List (RankedItem α)) : List (RankedItem α) :=
  items.insertionSort (fun a b => needLE a b = true)

/-- `candidateA` from `getNextMatchup` lines 16-19: the item at index
`Math.floor(Math.random() * Math.min(3, sortedByNeed.length))` of the
need-sorted pool; the random draw is the oracle `rA`. -/
def pickA (rA : ℕ) (items : List (RankedItem α)) : Option (RankedItem α) :=
  (sortedByNeed items)[rA % min 3 (sortedByNeed items).length]?

/-- `potentialOpponents` from `getNextMatchup` line 23: every item whose id
differs from the chosen competitor's id. -/
def potentialOpponents (a : RankedItem α) (items : List (RankedItem α)) : List (RankedItem α) :=
  items.filter (fun item => decide (item.id ≠ a.id))

/-- `closeOpponents` before the fallback, `getNextMatchup` lines 25-27:
potential opponents whose rating is within `idealRatingDiff = 100` of the
chosen competitor's rating. -/
def closeOpponents (a : RankedItem α) (items : List (RankedItem α)) : List (RankedItem α) :=
  (potentialOpponents a items).filter (fun item => decide (|item.rating - a.rating| ≤ 100))

/-- The final opponent candidate list, `getNextMatchup` lines 29-36: the
close opponents, or, when that list is empty, the first three potential
opponents after sorting by absolute rating difference. -/
def opponentPool (a : RankedItem α) (items : List (RankedItem α)) : List (RankedItem α) :=
  if (closeOpponents a items).length = 0 then
    ((potentialOpponents a items).insertionSort (fun x y => closeSortLE a x y = true)).take 3
  else closeOpponents a items

/-- `getNextMatchup` from `src/utils/matchmaking.ts`: `none` for pools of
fewer than two items (the source returns `null`); otherwise the pair of
`candidateA` and the indexed opponent.  The opponent access
`closeOpponents[Math.floor(Math.random() * closeOpponents.length)]` can
produce `undefined` in JavaScript when the candidate list is empty, which is
modelled by the inner `Option`. -/
def getNextMatchup (rA rB : ℕ) (items : List (RankedItem α)) :
    Option (RankedItem α × Option (RankedItem α)) :=
  if items.length < 2 then none
  else
    match pickA rA items with
    | none => none
    | some candidateA =>
        some (candidateA,
          (opponentPool candidateA items)[rB % (opponentPool candidateA items).length]?)

end Matchmaker

noncomputable section Engine

/-- `TAU` from `src/utils/math.ts` line 1. -/
def TAU : ℝ := 0.5

/-- `GLICKO_SCALE` from `src/utils/math.ts` line 4. -/
def GLICKO_SCALE : ℝ := 173.7178

/-- `GlickoPlayer` from `src/utils/math.ts`: rating state on the standard
scale. -/
structure GlickoPlayer where
  rating : ℝ
  rd : ℝ
  vol : ℝ

/-- The record `{mu, phi, sigma}` produced by `toGlickoScale`. -/
structure ScaledPlayer where
  mu : ℝ
  phi : ℝ
  sigma : ℝ

/-- `toGlickoScale` from `src/utils/math.ts` lines 6-12. -/
def toGlickoScale (player : GlickoPlayer) : ScaledPlayer :=
  ⟨(player.rating - 1500) / GLICKO_SCALE, player.rd / GLICKO_SCALE, player.vol⟩

/-- `toStandardScale` from `src/utils/math.ts` lines 14-24. -/
def toStandardScale (mu phi sigma : ℝ) : GlickoPlayer :=
  ⟨mu * GLICKO_SCALE + 1500, phi * GLICKO_SCALE, sigma⟩

/-- Helper `g` from `src/utils/math.ts` lines 27-29. -/
def g (phi : ℝ) : ℝ :=
  1 / Real.sqrt (1 + 3 * phi ^ 2 / Real.pi ^ 2)

/-- Helper `E` from `src/utils/math.ts` lines 32-34. -/
def E (mu mu_j phi_j : ℝ) : ℝ :=
  1 / (1 + Real.exp (-(g phi_j) * (mu - mu_j)))

/-- The local function `f` of `calculateNewStats` (lines 58-65), with the
captured locals `delta`, `p.phi`, `v` and `a` made explicit parameters. -/
def fVol (delta phi v a x : ℝ) : ℝ :=
  Real.exp x * (delta ^ 2 - phi ^ 2 - v - Real.exp x) / (2 * (phi ^ 2 + v + Real.exp x) ^ 2)
    - (x - a) / TAU ^ 2

/-- The bracketing loop of `calculateNewStats` (lines 72-76):
`while (f(a - k*TAU) < 0) k += 1; B = a - k*TAU`, modelled with fuel; on
exhausted fuel the current candidate `a - k*TAU` is returned. -/
def findK (f : ℝ → ℝ) (a : ℝ) : ℕ → ℕ → ℝ
  | 0, k => a - (k : ℝ) * TAU
  | fuel + 1, k => if f (a - (k : ℝ) * TAU) < 0 then findK f a fuel (k + 1) else a - (k : ℝ) * TAU

/-- The Illinois iteration of `calculateNewStats` (lines 82-94):
`while (|B - A| > 1e-6) { C := A + (A-B)*fA/(fB-fA); ... }` returning the
final `A`, modelled with fuel; on exhausted fuel the current `A` is
returned. -/
def illinois (f : ℝ → ℝ) : ℕ → ℝ → ℝ → ℝ → ℝ → ℝ
  | 0, A, _, _, _ => A
  | fuel + 1, A, B, fA, fB =>
    if |B - A| > 1e-6 then
      let C := A + (A - B) * fA / (fB - fA)
      let fC := f C
      if fC * fB < 0 then illinois f fuel B C fB fC
      else illinois f fuel A C (fA / 2) fC
    else A

/-- Local `v` of `calculateNewStats` (line 49). -/
def v_of (p o : ScaledPlayer) : ℝ :=
  1 / (g o.phi ^ 2 * E p.mu o.mu o.phi * (1 - E p.mu o.mu o.phi))

/-- Local `delta` of `calculateNewStats` (line 53). -/
def delta_of (p o : ScaledPlayer) (score : ℝ) : ℝ :=
  v_of p o * g o.phi * (score - E p.mu o.mu o.phi)

/-- Local `a` of `calculateNewStats` (line 57). -/
def a_of (p : ScaledPlayer) : ℝ :=
  Real.log (p.sigma ^ 2)

/-- The closure `f` of `calculateNewStats` with its captured locals. -/
def f_of (p o : ScaledPlayer) (score : ℝ) : ℝ → ℝ :=
  fVol (delta_of p o score) p.phi (v_of p o) (a_of p)

/-- Local `B` of `calculateNewStats` after lines 67-77: the second bracket
endpoint, by case split on `delta^2 > p.phi^2 + v`. -/
def B_of (fuel : ℕ) (p o : ScaledPlayer) (score : ℝ) : ℝ :=
  if p.phi ^ 2 + v_of p o < delta_of p o score ^ 2 then
    Real.log (delta_of p o score ^ 2 - p.phi ^ 2 - v_of p o)
  else findK (f_of p o score) (a_of p) fuel 1

/-- Local `A` of `calculateNewStats` after the Illinois loop (lines 79-94),
starting from `A = a`, `fA = f A`, `fB = f B`. -/
def A_of (fuel : ℕ) (p o : ScaledPlayer) (score : ℝ) : ℝ :=
  illinois (f_of p o score) fuel (a_of p) (B_of fuel p o score)
    (f_of p o score (a_of p)) (f_of p o score (B_of fuel p o score))

/-- Local `newSigma` of `calculateNewStats` (line 96). -/
def newSigma_of (fuel : ℕ) (p o : ScaledPlayer) (score : ℝ) : ℝ :=
  Real.exp (A_of fuel p o score / 2)

/-- Local `phiStar` of `calculateNewStats` (line 99). -/
def phiStar_of (fuel : ℕ) (p o : ScaledPlayer) (score : ℝ) : ℝ :=
  Real.sqrt (p.phi ^ 2 + newSigma_of fuel p o score ^ 2)

/-- Local `newPhi` of `calculateNewStats` (line 101). -/
def newPhi_of (fuel : ℕ) (p o : ScaledPlayer) (score : ℝ) : ℝ :=
  1 / Real.sqrt (1 / phiStar_of fuel p o score ^ 2 + 1 / v_of p o)

/-- Local `newMu` of `calculateNewStats` (line 102). -/
def newMu_of (fuel : ℕ) (p o : ScaledPlayer) (score : ℝ) : ℝ :=
  p.mu + newPhi_of fuel p o score ^ 2 * g o.phi * (score - E p.mu o.mu o.phi)

/-- `calculateNewStats` from `src/utils/math.ts` lines 36-106, assembled
from the locals above exactly as in the source; the `score` parameter is a
real number because the TypeScript annotation `0 | 0.5 | 1` is erased at
runtime and nothing checks it. -/
def calculateNewStats (fuel : ℕ) (player opponent : GlickoPlayer) (score : ℝ) : GlickoPlayer :=
  toStandardScale
    (newMu_of fuel (toGlickoScale player) (toGlickoScale opponent) score)
    (newPhi_of fuel (toGlickoScale player) (toGlickoScale opponent) score)
    (newSigma_of fuel (toGlickoScale player) (toGlickoScale opponent) score)

/-- `toGlickoPlayer` from `src/utils/rankingSystem.ts` lines 4-10. -/
def toGlickoPlayer (item : RankedItem ℝ) : GlickoPlayer :=
  ⟨item.rating, item.rd, item.vol⟩

/-- `processMatch` from `src/utils/rankingSystem.ts` lines 12-40: update both
items from their pre-match states, with the complementary score computed by
the source's ternary chain, and bump each match count. -/
def processMatch (fuel : ℕ) (item1 item2 : RankedItem ℝ) (result : ℝ) :
    RankedItem ℝ × RankedItem ℝ :=
  let player1 := toGlickoPlayer item1
  let player2 := toGlickoPlayer item2
  let newStats1 := calculateNewStats fuel player1 player2 result
  let score2 : ℝ := if result = 0.5 then 0.5 else if result = 1 then 0 else 1
  let newStats2 := calculateNewStats fuel player2 player1 score2
  ({ item1 with
      rating := newStats1.rating, rd := newStats1.rd, vol := newStats1.vol
      matchCount := item1.matchCount + 1 },
   { item2 with
      rating := newStats2.rating, rd := newStats2.rd, vol := newStats2.vol
      matchCount := item2.matchCount + 1 })

/-- Opponent state used as a concrete input below: its rating is placed so
that the expected score of a 1500-rated player against it is exactly 1/10. -/
def wideOpponent : GlickoPlayer :=
  ⟨1500 + GLICKO_SCALE * (Real.log 9 / g (350 / GLICKO_SCALE)), 350, 0.06⟩

/-- Player state used as a concrete input below: its volatility is chosen so
that the two bracket endpoints of the volatility solver coincide and the
Illinois loop returns immediately. -/
def volatilePlayer : GlickoPlayer :=
  ⟨1500, 30,
    Real.sqrt ((800 / 9) * (1 + 3 * (350 / GLICKO_SCALE) ^ 2 / Real.pi ^ 2)
      - (30 / GLICKO_SCALE) ^ 2)⟩

end Engine


/-- Concrete two-item pool with distinct identifiers, used to evaluate the
matchmaker on an explicit input. -/
def pool2 : List (RankedItem ℤ) :=
  [⟨"a", "A", none, 1500, 350, 1, 0⟩, ⟨"b", "B", none, 1500, 350, 1, 0⟩]

/-- Concrete two-item pool whose items share an identifier. -/
def dupPool : List (RankedItem ℤ) :=
  [⟨"x", "X", none, 1500, 350, 1, 0⟩, ⟨"x", "Y", none, 1500, 350, 1, 0⟩]

lemma length_sortedByNeed {α : Type} [LinearOrderedRing α] (items : List (RankedItem α)) :
    (sortedByNeed items).length = items.length :=
  List.length_insertionSort _ _

lemma pickA_eq_some {α : Type} [LinearOrderedRing α] (items : List (RankedItem α))
    (h : 1 ≤ items.length) (rA : ℕ) :
    ∃ a, pickA rA items = some a ∧ a ∈ items := by
  have hlen : (sortedByNeed items).length = items.length := length_sortedByNeed items
  have hmin : 0 < min 3 (sortedByNeed items).length := by
    rw [hlen]; omega
  have hidx : rA % min 3 (sortedByNeed items).length < (sortedByNeed items).length :=
    lt_of_lt_of_le (Nat.mod_lt _ hmin) (min_le_right _ _)
  refine ⟨(sortedByNeed items)[rA % min 3 (sortedByNeed items).length], ?_, ?_⟩
  · simp [pickA, List.getElem?_eq_getElem hidx]
  · exact (List.mem_insertionSort _).mp (List.getElem_mem hidx)

lemma pickA_mem {α : Type} [LinearOrderedRing α] {items : List (RankedItem α)}
    {a : RankedItem α} {rA : ℕ} (h : pickA rA items = some a) : a ∈ items := by
  unfold pickA at h
  exact (List.mem_insertionSort _).mp (List.getElem?_mem h)

lemma mem_potentialOpponents {α : Type} {a b : RankedItem α} {items : List (RankedItem α)} :
    b ∈ potentialOpponents a items ↔ b ∈ items ∧ b.id ≠ a.id := by
  simp [potentialOpponents]

lemma opponentPool_subset {α : Type} [LinearOrderedRing α] {a b : RankedItem α}
    {items : List (RankedItem α)}
    (h : b ∈ opponentPool a items) : b ∈ potentialOpponents a items := by
  unfold opponentPool at h
  split at h
  · exact (List.mem_insertionSort _).mp (List.take_subset _ _ h)
  · exact List.mem_of_mem_filter h

lemma potentialOpponents_ne_nil {α : Type} (items : List (RankedItem α)) (a : RankedItem α)
    (h2 : 2 ≤ items.length) (hnd : (items.map RankedItem.id).Nodup) :
    potentialOpponents a items ≠ [] := by
  rcases items with _ | ⟨x, _ | ⟨y, t⟩⟩
  · simp at h2
  · simp at h2
  · have hxy : x.id ≠ y.id := by
      simp only [List.map_cons, List.nodup_cons, List.mem_cons, List.mem_map] at hnd
      exact fun h => hnd.1 (Or.inl h)
    rcases (em (x.id = a.id)) with hx | hx
    · have hy : y.id ≠ a.id := fun h => hxy (hx.trans h.symm)
      exact List.ne_nil_of_mem (mem_potentialOpponents.mpr ⟨by simp, hy⟩)
    · exact List.ne_nil_of_mem (mem_potentialOpponents.mpr ⟨by simp, hx⟩)

lemma opponentPool_ne_nil {α : Type} [LinearOrderedRing α] (items : List (RankedItem α))
    (a : RankedItem α) (h2 : 2 ≤ items.length) (hnd : (items.map RankedItem.id).Nodup) :
    opponentPool a items ≠ [] := by
  have hpot : potentialOpponents a items ≠ [] := potentialOpponents_ne_nil items a h2 hnd
  unfold opponentPool
  split
  · intro hnil
    have hlen := congrArg List.length hnil
    simp only [List.length_take, List.length_insertionSort, List.length_nil] at hlen
    have hz : (potentialOpponents a items).length = 0 := by omega
    exact hpot (List.length_eq_zero.mp hz)
  · intro hnil
    rename_i hcond
    exact hcond (by rw [hnil]; rfl)

lemma getElem_mod_eq_some {β : Type} {l : List β} (h : l ≠ []) (r : ℕ) :
    ∃ b, l[r % l.length]? = some b ∧ b ∈ l := by
  have hpos : 0 < l.length := List.length_pos.mpr h
  have hlt : r % l.length < l.length := Nat.mod_lt _ hpos
  exact ⟨l[r % l.length], by simp [List.getElem?_eq_getElem hlt], List.getElem_mem hlt⟩

lemma getNextMatchup_eq_of_pickA {α : Type} [LinearOrderedRing α] {items : List (RankedItem α)}
    {rA rB : ℕ} {a : RankedItem α} (h2 : ¬ items.length < 2) (ha : pickA rA items = some a) :
    getNextMatchup rA rB items =
      some (a, (opponentPool a items)[rB % (opponentPool a items).length]?) := by
  unfold getNextMatchup
  rw [if_neg h2, ha]

/-- C4: `getNextMatchup` returns no pair exactly when the pool has fewer than
two items, and on a pool of at least two items with pairwise-distinct
identifiers it returns a pair whose two sides never share an identifier. -/
theorem getNextMatchup_none_iff_small_and_distinct_ids {α : Type} [LinearOrderedRing α]
    (rA rB : ℕ) (items : List (RankedItem α)) :
    (getNextMatchup rA rB items = none ↔ items.length < 2) ∧
    (2 ≤ items.length → (items.map RankedItem.id).Nodup →
      ∃ a b, getNextMatchup rA rB items = some (a, some b) ∧ a.id ≠ b.id) := by
  constructor
  · constructor
    · intro h
      by_contra hlt
      push_neg at hlt
      obtain ⟨a, ha, hamem⟩ := pickA_eq_some items (by omega) rA
      rw [getNextMatchup_eq_of_pickA (by omega) ha] at h
      exact Option.noConfusion h
    · intro h
      simp [getNextMatchup, if_pos h]
  · intro h2 hnd
    obtain ⟨a, ha, hamem⟩ := pickA_eq_some items (by omega) rA
    have hpool := opponentPool_ne_nil items a h2 hnd
    obtain ⟨b, hb, hbmem⟩ := getElem_mod_eq_some hpool rB
    refine ⟨a, b, ?_, ?_⟩
    · rw [getNextMatchup_eq_of_pickA (by omega) ha, hb]
    · exact fun hab => (mem_potentialOpponents.mp (opponentPool_subset hbmem)).2 hab.symm

/-- C4 witness at a concrete two-item integer pool. -/
theorem getNextMatchup_none_iff_small_and_distinct_ids_w :
    2 ≤ pool2.length ∧ (pool2.map RankedItem.id).Nodup ∧
    (∃ a b, getNextMatchup 0 0 pool2 = some (a, some b) ∧ a.id ≠ b.id) :=
  ⟨by decide, by decide,
    (getNextMatchup_none_iff_small_and_distinct_ids 0 0 pool2).2 (by decide) (by decide)⟩


/-- C10 counterexample: a two-item pool whose items share an identifier makes
the opponent candidate list empty, the indexing miss is reached, and the
returned competitor B is undefined (`none`), refuting the claim for pools
without pairwise-distinct identifiers. -/
theorem opponentPool_empty_cex :
    2 ≤ dupPool.length ∧
    pickA 0 dupPool = some ⟨"x", "X", none, 1500, 350, 1, 0⟩ ∧
    opponentPool (⟨"x", "X", none, 1500, 350, 1, 0⟩ : RankedItem ℤ) dupPool = [] ∧
    getNextMatchup 0 0 dupPool = some (⟨"x", "X", none, 1500, 350, 1, 0⟩, none) :=
  ⟨by decide, by decide, by decide, by decide⟩

/-- C10 amended: for pools of at least two items with pairwise-distinct
identifiers, the opponent candidate list built inside `getNextMatchup` is
non-empty and the random index into it always hits a defined item. -/
theorem opponentPool_ne_nil_of_nodup_ids {α : Type} [LinearOrderedRing α]
    (rA rB : ℕ) (items : List (RankedItem α)) (a : RankedItem α)
    (h2 : 2 ≤ items.length) (hnd : (items.map RankedItem.id).Nodup)
    (hpicked : pickA rA items = some a) :
    opponentPool a items ≠ [] ∧
    ∃ b, (opponentPool a items)[rB % (opponentPool a items).length]? = some b := by
  have hne := opponentPool_ne_nil items a h2 hnd
  obtain ⟨b, hb, _⟩ := getElem_mod_eq_some hne rB
  exact ⟨hne, b, hb⟩

/-- C10 amended witness at a concrete two-item integer pool. -/
theorem opponentPool_ne_nil_of_nodup_ids_w :
    2 ≤ pool2.length ∧ (pool2.map RankedItem.id).Nodup ∧
    pickA 0 pool2 = some ⟨"a", "A", none, 1500, 350, 1, 0⟩ ∧
    (opponentPool (⟨"a", "A", none, 1500, 350, 1, 0⟩ : RankedItem ℤ) pool2 ≠ [] ∧
     ∃ b, (opponentPool (⟨"a", "A", none, 1500, 350, 1, 0⟩ : RankedItem ℤ) pool2)[0 %
         (opponentPool (⟨"a", "A", none, 1500, 350, 1, 0⟩ : RankedItem ℤ) pool2).length]? =
       some b) :=
  ⟨by decide, by decide, by decide,
    opponentPool_ne_nil_of_nodup_ids 0 0 pool2 ⟨"a", "A", none, 1500, 350, 1, 0⟩
      (by decide) (by decide) (by decide)⟩

lemma getNextMatchup_inv {α : Type} [LinearOrderedRing α] {rA rB : ℕ}
    {items : List (RankedItem α)} {a : RankedItem α} {ob : Option (RankedItem α)}
    (h : getNextMatchup rA rB items = some (a, ob)) :
    ¬ items.length < 2 ∧ pickA rA items = some a ∧
    ob = (opponentPool a items)[rB % (opponentPool a items).length]? := by
  by_cases hlt : items.length < 2
  · rw [getNextMatchup, if_pos hlt] at h
    exact absurd h (by simp)
  · rcases hpa : pickA rA items with _ | a0
    · unfold getNextMatchup at h
      rw [if_neg hlt, hpa] at h
      exact absurd h (by simp)
    · rw [getNextMatchup_eq_of_pickA hlt hpa] at h
      simp only [Option.some.injEq, Prod.mk.injEq] at h
      obtain ⟨he, hx⟩ := h
      subst he
      exact ⟨hlt, rfl, hx.symm⟩

/-- C7: whatever the random draws, a returned pair is structurally
constrained: competitor A lies in the top `min 3 poolSize` of the
need-sorted pool, and competitor B lies in the within-100 candidate list,
or, when that list is empty, among the first three potential opponents in
order of absolute rating difference, whose differences are minimal over the
whole pool minus A. -/
theorem getNextMatchup_structure {α : Type} [LinearOrderedRing α]
    (rA rB : ℕ) (items : List (RankedItem α)) (a b : RankedItem α)
    (h : getNextMatchup rA rB items = some (a, some b)) :
    a ∈ (sortedByNeed items).take (min 3 items.length) ∧
    (b ∈ closeOpponents a items ∨
      (closeOpponents a items = [] ∧
       b ∈ ((potentialOpponents a items).insertionSort
              (fun x y => closeSortLE a x y = true)).take 3 ∧
       ∀ y ∈ potentialOpponents a items,
         y ∉ ((potentialOpponents a items).insertionSort
               (fun x y => closeSortLE a x y = true)).take 3 →
         ∀ x ∈ ((potentialOpponents a items).insertionSort
                 (fun x y => closeSortLE a x y = true)).take 3,
           |x.rating - a.rating| ≤ |y.rating - a.rating|)) := by
  obtain ⟨hlt, hpa, hob⟩ := getNextMatchup_inv h
  have hbm : b ∈ opponentPool a items := List.getElem?_mem hob.symm
  constructor
  · unfold pickA at hpa
    have hminpos : 0 < min 3 (sortedByNeed items).length := by
      have := length_sortedByNeed items
      omega
    have hidx : rA % min 3 (sortedByNeed items).length < min 3 (sortedByNeed items).length :=
      Nat.mod_lt _ hminpos
    rw [← length_sortedByNeed items]
    exact List.getElem?_mem ((List.getElem?_take_of_lt hidx).trans hpa)
  · by_cases hc : (closeOpponents a items).length = 0
    · rw [opponentPool, if_pos hc] at hbm
      refine Or.inr ⟨List.length_eq_zero.mp hc, hbm, ?_⟩
      haveI htot : IsTotal (RankedItem α) (fun x y => closeSortLE a x y = true) :=
        ⟨fun x y => by
          simp only [closeSortLE, decide_eq_true_eq]
          exact le_total _ _⟩
      haveI htrans : IsTrans (RankedItem α) (fun x y => closeSortLE a x y = true) :=
        ⟨fun x y z hxy hyz => by
          simp only [closeSortLE, decide_eq_true_eq] at hxy hyz ⊢
          exact le_trans hxy hyz⟩
      have hs : List.Sorted (fun x y => closeSortLE a x y = true)
          ((potentialOpponents a items).insertionSort
            (fun x y => closeSortLE a x y = true)) :=
        List.sorted_insertionSort _ _
      have hsplit := List.take_append_drop 3
        ((potentialOpponents a items).insertionSort (fun x y => closeSortLE a x y = true))
      have hp : List.Pairwise (fun x y => closeSortLE a x y = true)
          (((potentialOpponents a items).insertionSort
              (fun x y => closeSortLE a x y = true)).take 3 ++
           ((potentialOpponents a items).insertionSort
              (fun x y => closeSortLE a x y = true)).drop 3) := by
        rw [hsplit]; exact hs
      obtain ⟨-, -, hcross⟩ := List.pairwise_append.mp hp
      intro y hy hyn x hx
      have hymem : y ∈
          ((potentialOpponents a items).insertionSort
              (fun x y => closeSortLE a x y = true)).take 3 ++
          ((potentialOpponents a items).insertionSort
              (fun x y => closeSortLE a x y = true)).drop 3 := by
        rw [hsplit]
        exact (List.mem_insertionSort _).mpr hy
      rcases List.mem_append.mp hymem with hyt | hyd
      · exact absurd hyt hyn
      · have := hcross x hx y hyd
        simpa only [closeSortLE, decide_eq_true_eq] using this
    · rw [opponentPool, if_neg hc] at hbm
      exact Or.inl hbm

/-- C7 witness at a concrete two-item integer pool. -/
theorem getNextMatchup_structure_w :
    getNextMatchup 0 0 pool2 =
      some (⟨"a", "A", none, 1500, 350, 1, 0⟩, some ⟨"b", "B", none, 1500, 350, 1, 0⟩) ∧
    ((⟨"a", "A", none, 1500, 350, 1, 0⟩ : RankedItem ℤ) ∈
        (sortedByNeed pool2).take (min 3 pool2.length) ∧
      ((⟨"b", "B", none, 1500, 350, 1, 0⟩ : RankedItem ℤ) ∈
          closeOpponents ⟨"a", "A", none, 1500, 350, 1, 0⟩ pool2 ∨
        (closeOpponents (⟨"a", "A", none, 1500, 350, 1, 0⟩ : RankedItem ℤ) pool2 = [] ∧
         (⟨"b", "B", none, 1500, 350, 1, 0⟩ : RankedItem ℤ) ∈
           ((potentialOpponents (⟨"a", "A", none, 1500, 350, 1, 0⟩ : RankedItem ℤ)
               pool2).insertionSort
             (fun x y => closeSortLE ⟨"a", "A", none, 1500, 350, 1, 0⟩ x y = true)).take 3 ∧
         ∀ y ∈ potentialOpponents (⟨"a", "A", none, 1500, 350, 1, 0⟩ : RankedItem ℤ) pool2,
           y ∉ ((potentialOpponents (⟨"a", "A", none, 1500, 350, 1, 0⟩ : RankedItem ℤ)
                  pool2).insertionSort
                (fun x y => closeSortLE ⟨"a", "A", none, 1500, 350, 1, 0⟩ x y = true)).take 3 →
           ∀ x ∈ ((potentialOpponents (⟨"a", "A", none, 1500, 350, 1, 0⟩ : RankedItem ℤ)
                    pool2).insertionSort
                  (fun x y => closeSortLE ⟨"a", "A", none, 1500, 350, 1, 0⟩ x y = true)).take 3,
             |x.rating - (⟨"a", "A", none, 1500, 350, 1, 0⟩ : RankedItem ℤ).rating| ≤
               |y.rating - (⟨"a", "A", none, 1500, 350, 1, 0⟩ : RankedItem ℤ).rating|))) :=
  ⟨by decide,
    getNextMatchup_structure 0 0 pool2 ⟨"a", "A", none, 1500, 350, 1, 0⟩
      ⟨"b", "B", none, 1500, 350, 1, 0⟩ (by decide)⟩


lemma GLICKO_SCALE_pos : (0:ℝ) < GLICKO_SCALE := by norm_num [GLICKO_SCALE]

lemma g_pos (phi : ℝ) : 0 < g phi := by
  have h : (0:ℝ) < 1 + 3 * phi ^ 2 / Real.pi ^ 2 := by positivity
  exact one_div_pos.mpr (Real.sqrt_pos.mpr h)

lemma g_sq (phi : ℝ) : g phi ^ 2 = 1 / (1 + 3 * phi ^ 2 / Real.pi ^ 2) := by
  have h : (0:ℝ) ≤ 1 + 3 * phi ^ 2 / Real.pi ^ 2 := by positivity
  rw [g, div_pow, one_pow, Real.sq_sqrt h]

lemma E_pos (mu mu_j phi_j : ℝ) : 0 < E mu mu_j phi_j := by
  have h : (0:ℝ) < 1 + Real.exp (-(g phi_j) * (mu - mu_j)) := by positivity
  exact one_div_pos.mpr h

lemma E_lt_one (mu mu_j phi_j : ℝ) : E mu mu_j phi_j < 1 := by
  rw [E, div_lt_one (by positivity)]
  linarith [Real.exp_pos (-(g phi_j) * (mu - mu_j))]

lemma E_self (mu phi_j : ℝ) : E mu mu phi_j = 1 / 2 := by
  rw [E, sub_self, mul_zero, Real.exp_zero]
  norm_num

lemma v_pos (p o : ScaledPlayer) : 0 < v_of p o := by
  have hg := g_pos o.phi
  have hE := E_pos p.mu o.mu o.phi
  have hE1 := E_lt_one p.mu o.mu o.phi
  exact one_div_pos.mpr (mul_pos (mul_pos (pow_pos hg 2) hE) (by linarith))

lemma newSigma_pos (fuel : ℕ) (p o : ScaledPlayer) (score : ℝ) :
    0 < newSigma_of fuel p o score :=
  Real.exp_pos _

lemma phiStar_pos (fuel : ℕ) (p o : ScaledPlayer) (score : ℝ) :
    0 < phiStar_of fuel p o score := by
  have h : 0 < p.phi ^ 2 + newSigma_of fuel p o score ^ 2 :=
    add_pos_of_nonneg_of_pos (sq_nonneg _) (pow_pos (newSigma_pos fuel p o score) 2)
  exact Real.sqrt_pos.mpr h

lemma newPhi_pos (fuel : ℕ) (p o : ScaledPlayer) (score : ℝ) :
    0 < newPhi_of fuel p o score := by
  have h : 0 < 1 / phiStar_of fuel p o score ^ 2 + 1 / v_of p o :=
    add_pos (one_div_pos.mpr (pow_pos (phiStar_pos fuel p o score) 2))
      (one_div_pos.mpr (v_pos p o))
  exact one_div_pos.mpr (Real.sqrt_pos.mpr h)

lemma newPhi_lt_phiStar (fuel : ℕ) (p o : ScaledPlayer) (score : ℝ) :
    newPhi_of fuel p o score < phiStar_of fuel p o score := by
  have hps := phiStar_pos fuel p o score
  have hq : 1 / phiStar_of fuel p o score ^ 2 < 1 / phiStar_of fuel p o score ^ 2 + 1 / v_of p o :=
    lt_add_of_pos_right _ (one_div_pos.mpr (v_pos p o))
  have h1 : Real.sqrt (1 / phiStar_of fuel p o score ^ 2) = 1 / phiStar_of fuel p o score := by
    rw [one_div, Real.sqrt_inv, Real.sqrt_sq hps.le, one_div]
  have h2 : 1 / phiStar_of fuel p o score < Real.sqrt
      (1 / phiStar_of fuel p o score ^ 2 + 1 / v_of p o) := by
    rw [← h1]
    exact Real.sqrt_lt_sqrt (by positivity) hq
  calc newPhi_of fuel p o score
      = 1 / Real.sqrt (1 / phiStar_of fuel p o score ^ 2 + 1 / v_of p o) := rfl
    _ < 1 / (1 / phiStar_of fuel p o score) := by
        apply one_div_lt_one_div_of_lt (one_div_pos.mpr hps) h2
    _ = phiStar_of fuel p o score := one_div_one_div _

lemma calculateNewStats_rating (fuel : ℕ) (player opponent : GlickoPlayer) (score : ℝ) :
    (calculateNewStats fuel player opponent score).rating =
      player.rating +
        GLICKO_SCALE * newPhi_of fuel (toGlickoScale player) (toGlickoScale opponent) score ^ 2 *
          g (toGlickoScale opponent).phi *
          (score - E (toGlickoScale player).mu (toGlickoScale opponent).mu
            (toGlickoScale opponent).phi) := by
  have hS : GLICKO_SCALE ≠ 0 := ne_of_gt GLICKO_SCALE_pos
  show (newMu_of fuel (toGlickoScale player) (toGlickoScale opponent) score) * GLICKO_SCALE + 1500 = _
  rw [newMu_of]
  show ((player.rating - 1500) / GLICKO_SCALE + _) * GLICKO_SCALE + 1500 = _
  field_simp
  ring

lemma calculateNewStats_rd (fuel : ℕ) (player opponent : GlickoPlayer) (score : ℝ) :
    (calculateNewStats fuel player opponent score).rd =
      newPhi_of fuel (toGlickoScale player) (toGlickoScale opponent) score * GLICKO_SCALE := rfl

lemma calculateNewStats_vol (fuel : ℕ) (player opponent : GlickoPlayer) (score : ℝ) :
    (calculateNewStats fuel player opponent score).vol =
      newSigma_of fuel (toGlickoScale player) (toGlickoScale opponent) score := rfl

lemma mu_eq_of_rating_eq {player opponent : GlickoPlayer} (h : player.rating = opponent.rating) :
    (toGlickoScale player).mu = (toGlickoScale opponent).mu := by
  simp [toGlickoScale, h]

lemma rating_shift_of_rating_eq (fuel : ℕ) (player opponent : GlickoPlayer) (score : ℝ)
    (h : player.rating = opponent.rating) :
    ∃ K : ℝ, 0 < K ∧
      (calculateNewStats fuel player opponent score).rating =
        player.rating + K * (score - 1 / 2) := by
  refine ⟨GLICKO_SCALE * newPhi_of fuel (toGlickoScale player) (toGlickoScale opponent) score ^ 2 *
      g (toGlickoScale opponent).phi, ?_, ?_⟩
  · have := newPhi_pos fuel (toGlickoScale player) (toGlickoScale opponent) score
    have := g_pos (toGlickoScale opponent).phi
    have := GLICKO_SCALE_pos
    positivity
  · rw [calculateNewStats_rating, mu_eq_of_rating_eq h, E_self]


/-- C8: a draw between equally rated states leaves the rating exactly
unchanged, because the expected score is exactly one half and the mean
update term vanishes. -/
theorem calculateNewStats_draw_fixes_rating (fuel : ℕ) (p o : GlickoPlayer)
    (h : p.rating = o.rating) :
    E (toGlickoScale p).mu (toGlickoScale o).mu (toGlickoScale o).phi = 1 / 2 ∧
    (calculateNewStats fuel p o 0.5).rating = p.rating := by
  refine ⟨by rw [mu_eq_of_rating_eq h, E_self], ?_⟩
  obtain ⟨K, hK, heq⟩ := rating_shift_of_rating_eq fuel p o 0.5 h
  rw [heq]
  norm_num

/-- C8 witness at two items rated 1500 with deviation 350 and volatility
0.06. -/
theorem calculateNewStats_draw_fixes_rating_w :
    (GlickoPlayer.mk 1500 350 0.06).rating = (GlickoPlayer.mk 1500 350 0.06).rating ∧
    (E (toGlickoScale ⟨1500, 350, 0.06⟩).mu (toGlickoScale ⟨1500, 350, 0.06⟩).mu
        (toGlickoScale ⟨1500, 350, 0.06⟩).phi = 1 / 2 ∧
      (calculateNewStats 100 ⟨1500, 350, 0.06⟩ ⟨1500, 350, 0.06⟩ 0.5).rating =
        (GlickoPlayer.mk 1500 350 0.06).rating) :=
  ⟨rfl, calculateNewStats_draw_fixes_rating 100 ⟨1500, 350, 0.06⟩ ⟨1500, 350, 0.06⟩ rfl⟩

/-- C1 amended: the engine performs no input validation.  Any real score is
fed through the same formulas: starting from equal ratings, any score above
one half strictly raises the output rating and any score below one half
strictly lowers it, whatever the deviations and volatilities. -/
theorem calculateNewStats_no_validation (fuel : ℕ) (p o : GlickoPlayer) (s : ℝ)
    (h : p.rating = o.rating) :
    (1 / 2 < s → p.rating < (calculateNewStats fuel p o s).rating) ∧
    (s < 1 / 2 → (calculateNewStats fuel p o s).rating < p.rating) := by
  obtain ⟨K, hK, heq⟩ := rating_shift_of_rating_eq fuel p o s h
  constructor
  · intro hs
    rw [heq]
    nlinarith
  · intro hs
    rw [heq]
    nlinarith

/-- C1 amended witness: the out-of-contract score 0.7 is processed like any
other score. -/
theorem calculateNewStats_no_validation_w :
    (GlickoPlayer.mk 1500 350 0.06).rating = (GlickoPlayer.mk 1500 350 0.06).rating ∧
    ((1 / 2 < (0.7:ℝ) →
        (GlickoPlayer.mk 1500 350 0.06).rating <
          (calculateNewStats 100 ⟨1500, 350, 0.06⟩ ⟨1500, 350, 0.06⟩ 0.7).rating) ∧
      ((0.7:ℝ) < 1 / 2 →
        (calculateNewStats 100 ⟨1500, 350, 0.06⟩ ⟨1500, 350, 0.06⟩ 0.7).rating <
          (GlickoPlayer.mk 1500 350 0.06).rating)) :=
  ⟨rfl, calculateNewStats_no_validation 100 ⟨1500, 350, 0.06⟩ ⟨1500, 350, 0.06⟩ 0.7 rfl⟩

/-- C1 counterexample: calls the claim says must fail with an InvalidInput
error are processed into ordinary rating updates.  A score of 0.7 (outside
the documented set) and a zero deviation (non-positive) both go through the
Glicko-2 formulas and produce a strictly increased rating; no error value
exists anywhere in the code. -/
theorem calculateNewStats_processes_invalid_inputs :
    ((0.7:ℝ) ≠ 0 ∧ (0.7:ℝ) ≠ 0.5 ∧ (0.7:ℝ) ≠ 1) ∧
    1500 < (calculateNewStats 100 ⟨1500, 350, 0.06⟩ ⟨1500, 350, 0.06⟩ 0.7).rating ∧
    ¬ 0 < (GlickoPlayer.mk 1500 0 0.06).rd ∧
    1500 < (calculateNewStats 100 ⟨1500, 0, 0.06⟩ ⟨1500, 350, 0.06⟩ 1).rating := by
  refine ⟨by norm_num, ?_, by norm_num, ?_⟩
  · obtain ⟨K, hK, heq⟩ :=
      rating_shift_of_rating_eq 100 ⟨1500, 350, 0.06⟩ ⟨1500, 350, 0.06⟩ 0.7 rfl
    rw [heq]
    show (1500:ℝ) < 1500 + K * (0.7 - 1 / 2)
    nlinarith
  · obtain ⟨K, hK, heq⟩ :=
      rating_shift_of_rating_eq 100 ⟨1500, 0, 0.06⟩ ⟨1500, 350, 0.06⟩ 1 rfl
    rw [heq]
    show (1500:ℝ) < 1500 + K * (1 - 1 / 2)
    nlinarith

lemma fVol_congr_sq {d1 d2 phi v a : ℝ} (h : d1 ^ 2 = d2 ^ 2) :
    fVol d1 phi v a = fVol d2 phi v a := by
  funext x
  rw [fVol, fVol, h]

lemma delta_sq_symm (p : ScaledPlayer) :
    delta_of p p 0 ^ 2 = delta_of p p 1 ^ 2 := by
  rw [delta_of, delta_of, E_self]
  ring

lemma newPhi_score_congr (fuel : ℕ) (p o : ScaledPlayer) {s t : ℝ}
    (h : delta_of p o s ^ 2 = delta_of p o t ^ 2) :
    newPhi_of fuel p o s = newPhi_of fuel p o t := by
  have hf : f_of p o s = f_of p o t := fVol_congr_sq h
  have hB : B_of fuel p o s = B_of fuel p o t := by
    rw [B_of, B_of, h, hf]
  rw [newPhi_of, newPhi_of, phiStar_of, phiStar_of, newSigma_of, newSigma_of, A_of, A_of, hf, hB]

lemma abs_half_symm (T : ℝ) : |T * (1 - 1 / 2)| = |T * (0 - 1 / 2)| := by
  rw [show T * (0 - 1 / 2) = -(T * (1 - 1 / 2)) by ring, abs_neg]

/-- C5: between two identical rating states, a win strictly raises the
winner's rating, a loss strictly lowers it, and the two rating changes
(each computed against the opponent's pre-update state) have equal
magnitude. -/
theorem updateRating_win_raises_loss_lowers (fuel : ℕ) (p o : GlickoPlayer)
    (h1 : p.rating = o.rating) (h2 : p.rd = o.rd) (h3 : p.vol = o.vol) :
    p.rating < (calculateNewStats fuel p o 1).rating ∧
    (calculateNewStats fuel p o 0).rating < p.rating ∧
    |(calculateNewStats fuel p o 1).rating - p.rating| =
      |(calculateNewStats fuel o p 0).rating - o.rating| := by
  obtain ⟨pr, prd, pv⟩ := p
  obtain ⟨qr, qrd, qv⟩ := o
  simp only at h1 h2 h3
  subst h1
  subst h2
  subst h3
  refine ⟨?_, ?_, ?_⟩
  · obtain ⟨K, hK, heq⟩ :=
      rating_shift_of_rating_eq fuel ⟨pr, prd, pv⟩ ⟨pr, prd, pv⟩ 1 rfl
    rw [heq]
    nlinarith
  · obtain ⟨K, hK, heq⟩ :=
      rating_shift_of_rating_eq fuel ⟨pr, prd, pv⟩ ⟨pr, prd, pv⟩ 0 rfl
    rw [heq]
    nlinarith
  · have hcong := newPhi_score_congr fuel (toGlickoScale ⟨pr, prd, pv⟩)
      (toGlickoScale ⟨pr, prd, pv⟩) (delta_sq_symm (toGlickoScale ⟨pr, prd, pv⟩))
    rw [calculateNewStats_rating, calculateNewStats_rating, mu_eq_of_rating_eq rfl, E_self,
      hcong, add_sub_cancel_left, add_sub_cancel_left]
    exact abs_half_symm _

/-- C5 witness at two items rated 1500 with deviation 350 and volatility
0.06. -/
theorem updateRating_win_raises_loss_lowers_w :
    ((GlickoPlayer.mk 1500 350 0.06).rating = (GlickoPlayer.mk 1500 350 0.06).rating ∧
      (GlickoPlayer.mk 1500 350 0.06).rd = (GlickoPlayer.mk 1500 350 0.06).rd ∧
      (GlickoPlayer.mk 1500 350 0.06).vol = (GlickoPlayer.mk 1500 350 0.06).vol) ∧
    ((GlickoPlayer.mk 1500 350 0.06).rating <
        (calculateNewStats 100 ⟨1500, 350, 0.06⟩ ⟨1500, 350, 0.06⟩ 1).rating ∧
      (calculateNewStats 100 ⟨1500, 350, 0.06⟩ ⟨1500, 350, 0.06⟩ 0).rating <
        (GlickoPlayer.mk 1500 350 0.06).rating ∧
      |(calculateNewStats 100 ⟨1500, 350, 0.06⟩ ⟨1500, 350, 0.06⟩ 1).rating -
          (GlickoPlayer.mk 1500 350 0.06).rating| =
        |(calculateNewStats 100 ⟨1500, 350, 0.06⟩ ⟨1500, 350, 0.06⟩ 0).rating -
          (GlickoPlayer.mk 1500 350 0.06).rating|) :=
  ⟨⟨rfl, rfl, rfl⟩,
    updateRating_win_raises_loss_lowers 100 ⟨1500, 350, 0.06⟩ ⟨1500, 350, 0.06⟩ rfl rfl rfl⟩


/-- C9: `processMatch` keeps `id`, `name`, `image` of both items, increments
both match counts by one, and computes both new rating states by
`calculateNewStats` from the two pre-comparison states, the second side with
the complementary score `1 - result`. -/
theorem processMatch_frame (fuel : ℕ) (item1 item2 : RankedItem ℝ) (result : ℝ)
    (h : result = 0 ∨ result = 0.5 ∨ result = 1) :
    ((processMatch fuel item1 item2 result).1.id = item1.id ∧
     (processMatch fuel item1 item2 result).1.name = item1.name ∧
     (processMatch fuel item1 item2 result).1.image = item1.image ∧
     (processMatch fuel item1 item2 result).2.id = item2.id ∧
     (processMatch fuel item1 item2 result).2.name = item2.name ∧
     (processMatch fuel item1 item2 result).2.image = item2.image) ∧
    ((processMatch fuel item1 item2 result).1.matchCount = item1.matchCount + 1 ∧
     (processMatch fuel item1 item2 result).2.matchCount = item2.matchCount + 1) ∧
    ((processMatch fuel item1 item2 result).1.rating =
        (calculateNewStats fuel (toGlickoPlayer item1) (toGlickoPlayer item2) result).rating ∧
     (processMatch fuel item1 item2 result).1.rd =
        (calculateNewStats fuel (toGlickoPlayer item1) (toGlickoPlayer item2) result).rd ∧
     (processMatch fuel item1 item2 result).1.vol =
        (calculateNewStats fuel (toGlickoPlayer item1) (toGlickoPlayer item2) result).vol) ∧
    ((processMatch fuel item1 item2 result).2.rating =
        (calculateNewStats fuel (toGlickoPlayer item2) (toGlickoPlayer item1)
          (1 - result)).rating ∧
     (processMatch fuel item1 item2 result).2.rd =
        (calculateNewStats fuel (toGlickoPlayer item2) (toGlickoPlayer item1) (1 - result)).rd ∧
     (processMatch fuel item1 item2 result).2.vol =
        (calculateNewStats fuel (toGlickoPlayer item2) (toGlickoPlayer item1)
          (1 - result)).vol) := by
  have hscore : (if result = 0.5 then (0.5:ℝ) else if result = 1 then 0 else 1) = 1 - result := by
    rcases h with rfl | rfl | rfl
    · rw [if_neg (by norm_num), if_neg (by norm_num)]
      norm_num
    · rw [if_pos rfl]
      norm_num
    · rw [if_neg (by norm_num), if_pos rfl]
      norm_num
  refine ⟨⟨rfl, rfl, rfl, rfl, rfl, rfl⟩, ⟨rfl, rfl⟩, ⟨rfl, rfl, rfl⟩, ?_, ?_, ?_⟩
  all_goals rw [← hscore]; rfl


/-- C9 witness at two concrete items and a win for the first. -/
theorem processMatch_frame_w :
    ((1:ℝ) = 0 ∨ (1:ℝ) = 0.5 ∨ (1:ℝ) = 1) ∧
    ((processMatch 100 ⟨"a", "A", none, 1500, 350, 0.06, 0⟩
        ⟨"b", "B", none, 1500, 350, 0.06, 0⟩ 1).1.id = "a" ∧
     (processMatch 100 ⟨"a", "A", none, 1500, 350, 0.06, 0⟩
        ⟨"b", "B", none, 1500, 350, 0.06, 0⟩ 1).2.id = "b" ∧
     (processMatch 100 ⟨"a", "A", none, 1500, 350, 0.06, 0⟩
        ⟨"b", "B", none, 1500, 350, 0.06, 0⟩ 1).1.matchCount = 1 ∧
     (processMatch 100 ⟨"a", "A", none, 1500, 350, 0.06, 0⟩
        ⟨"b", "B", none, 1500, 350, 0.06, 0⟩ 1).2.rating =
       (calculateNewStats 100
         (toGlickoPlayer ⟨"b", "B", none, 1500, 350, 0.06, 0⟩)
         (toGlickoPlayer ⟨"a", "A", none, 1500, 350, 0.06, 0⟩) (1 - 1)).rating) := by
  have h := processMatch_frame 100 ⟨"a", "A", none, 1500, 350, 0.06, 0⟩
    ⟨"b", "B", none, 1500, 350, 0.06, 0⟩ 1 (by norm_num)
  exact ⟨by norm_num, h.1.1, h.1.2.2.2.1, h.2.1.1, h.2.2.2.1⟩

lemma fVol_pos_at_probe {d phi v : ℝ} (hQ : 0 < phi ^ 2 + v) (hd : d ^ 2 ≤ phi ^ 2 + v)
    (a : ℝ) (k : ℕ) (hk : 1 ≤ k) : 0 < fVol d phi v a (a - k * TAU) := by
  have he0 : 0 < Real.exp (a - k * TAU) := Real.exp_pos _
  have hterm2 : (a - (k:ℝ) * TAU - a) / TAU ^ 2 = -(2 * k) := by
    rw [TAU]
    norm_num
    ring
  have hden : (0:ℝ) < 2 * (phi ^ 2 + v + Real.exp (a - k * TAU)) ^ 2 := by positivity
  have hterm1 : -(1/2) < Real.exp (a - k * TAU) * (d ^ 2 - phi ^ 2 - v - Real.exp (a - k * TAU)) /
      (2 * (phi ^ 2 + v + Real.exp (a - k * TAU)) ^ 2) := by
    rw [lt_div_iff₀ hden]
    nlinarith [mul_nonneg he0.le (sq_nonneg d), mul_pos he0 hQ, sq_nonneg (phi ^ 2 + v)]
  have hk1 : (1:ℝ) ≤ k := by exact_mod_cast hk
  rw [fVol, hterm2]
  linarith

lemma findK_stops_immediately {d phi v : ℝ} (hQ : 0 < phi ^ 2 + v)
    (hd : d ^ 2 ≤ phi ^ 2 + v) (a : ℝ) (fuel : ℕ) :
    findK (fVol d phi v a) a fuel 1 = a - 1 * TAU := by
  cases fuel with
  | zero =>
      show a - ((1:ℕ):ℝ) * TAU = a - 1 * TAU
      norm_num
  | succ n =>
      rw [findK, if_neg (not_lt.mpr (fVol_pos_at_probe hQ hd a 1 le_rfl).le)]
      norm_num

/-- C3 amended: in the `delta^2 ≤ phi^2 + v` branch the bracket search stops
at the first (here: the very first) multiple of τ at which `f` is
NON-negative; `f` is in fact positive at every probe `a - k·τ`, so no
multiple of τ with a negative `f` value exists at all. -/
theorem bracket_search_stops_at_nonneg (d phi v a : ℝ) (fuel : ℕ)
    (hQ : 0 < phi ^ 2 + v) (hd : d ^ 2 ≤ phi ^ 2 + v) :
    findK (fVol d phi v a) a fuel 1 = a - 1 * TAU ∧
    0 ≤ fVol d phi v a (a - 1 * TAU) ∧
    (∀ k : ℕ, 1 ≤ k → ¬ fVol d phi v a (a - k * TAU) < 0) := by
  refine ⟨findK_stops_immediately hQ hd a fuel, ?_, ?_⟩
  · have := fVol_pos_at_probe hQ hd a 1 le_rfl
    norm_num at this ⊢
    exact this.le
  · intro k hk
    exact not_lt.mpr (fVol_pos_at_probe hQ hd a k hk).le

/-- C3 amended witness at concrete solver inputs. -/
theorem bracket_search_stops_at_nonneg_w :
    ((0:ℝ) < 1 ^ 2 + 1 ∧ (0:ℝ) ^ 2 ≤ 1 ^ 2 + 1) ∧
    (findK (fVol 0 1 1 0) 0 3 1 = 0 - 1 * TAU ∧
     0 ≤ fVol 0 1 1 0 (0 - 1 * TAU) ∧
     (∀ k : ℕ, 1 ≤ k → ¬ fVol 0 1 1 0 (0 - k * TAU) < 0)) :=
  ⟨⟨by norm_num, by norm_num⟩,
    bracket_search_stops_at_nonneg 0 1 1 0 3 (by norm_num) (by norm_num)⟩


/-- C3 counterexample: with both states at rating 1500, deviation 350,
volatility 0.06 and score 0.5, the solver is in the decrementing branch and
the code stops at `B = a - τ` where `f` is strictly POSITIVE — not negative
as the claim describes. -/
theorem bracket_search_cex :
    delta_of (toGlickoScale ⟨1500, 350, 0.06⟩) (toGlickoScale ⟨1500, 350, 0.06⟩) 0.5 = 0 ∧
    ¬((toGlickoScale (⟨1500, 350, 0.06⟩ : GlickoPlayer)).phi ^ 2 +
        v_of (toGlickoScale ⟨1500, 350, 0.06⟩) (toGlickoScale ⟨1500, 350, 0.06⟩) <
      delta_of (toGlickoScale ⟨1500, 350, 0.06⟩) (toGlickoScale ⟨1500, 350, 0.06⟩) 0.5 ^ 2) ∧
    B_of 100 (toGlickoScale ⟨1500, 350, 0.06⟩) (toGlickoScale ⟨1500, 350, 0.06⟩) 0.5 =
      a_of (toGlickoScale ⟨1500, 350, 0.06⟩) - 1 * TAU ∧
    0 < f_of (toGlickoScale ⟨1500, 350, 0.06⟩) (toGlickoScale ⟨1500, 350, 0.06⟩) 0.5
      (B_of 100 (toGlickoScale ⟨1500, 350, 0.06⟩) (toGlickoScale ⟨1500, 350, 0.06⟩) 0.5) := by
  have hdelta : delta_of (toGlickoScale ⟨1500, 350, 0.06⟩)
      (toGlickoScale ⟨1500, 350, 0.06⟩) 0.5 = 0 := by
    rw [delta_of, E_self]
    norm_num
  have hQ : 0 < (toGlickoScale (⟨1500, 350, 0.06⟩ : GlickoPlayer)).phi ^ 2 +
      v_of (toGlickoScale ⟨1500, 350, 0.06⟩) (toGlickoScale ⟨1500, 350, 0.06⟩) :=
    add_pos_of_nonneg_of_pos (sq_nonneg _) (v_pos _ _)
  have hzero : (0:ℝ) ^ 2 = 0 := by norm_num
  have hd : (0:ℝ) ^ 2 ≤ (toGlickoScale (⟨1500, 350, 0.06⟩ : GlickoPlayer)).phi ^ 2 +
      v_of (toGlickoScale ⟨1500, 350, 0.06⟩) (toGlickoScale ⟨1500, 350, 0.06⟩) := by
    rw [hzero]
    exact hQ.le
  have hbranch : ¬((toGlickoScale (⟨1500, 350, 0.06⟩ : GlickoPlayer)).phi ^ 2 +
      v_of (toGlickoScale ⟨1500, 350, 0.06⟩) (toGlickoScale ⟨1500, 350, 0.06⟩) <
      delta_of (toGlickoScale ⟨1500, 350, 0.06⟩) (toGlickoScale ⟨1500, 350, 0.06⟩) 0.5 ^ 2) := by
    rw [hdelta, hzero]
    exact not_lt.mpr hQ.le
  have hfof : f_of (toGlickoScale ⟨1500, 350, 0.06⟩) (toGlickoScale ⟨1500, 350, 0.06⟩) 0.5 =
      fVol 0 (toGlickoScale (⟨1500, 350, 0.06⟩ : GlickoPlayer)).phi
        (v_of (toGlickoScale ⟨1500, 350, 0.06⟩) (toGlickoScale ⟨1500, 350, 0.06⟩))
        (a_of (toGlickoScale ⟨1500, 350, 0.06⟩)) := by
    rw [f_of, hdelta]
  have hB : B_of 100 (toGlickoScale ⟨1500, 350, 0.06⟩) (toGlickoScale ⟨1500, 350, 0.06⟩) 0.5 =
      a_of (toGlickoScale ⟨1500, 350, 0.06⟩) - 1 * TAU := by
    rw [B_of, if_neg hbranch, hfof, findK_stops_immediately hQ hd]
  refine ⟨hdelta, hbranch, hB, ?_⟩
  rw [hfof, hB]
  have := fVol_pos_at_probe hQ hd (a_of (toGlickoScale ⟨1500, 350, 0.06⟩)) 1 le_rfl
  norm_num at this ⊢
  exact this


/-- C6 amended: the updated deviation always stays strictly below the
pre-inflation bound `sqrt(rd^2 + (S * vol')^2)` (scale `S` times `phiStar`),
but it is NOT always at most the input deviation. -/
theorem deviation_below_preinflation (fuel : ℕ) (p o : GlickoPlayer) (s : ℝ) :
    (calculateNewStats fuel p o s).rd <
      Real.sqrt (p.rd ^ 2 + (GLICKO_SCALE * (calculateNewStats fuel p o s).vol) ^ 2) := by
  have hS := GLICKO_SCALE_pos
  rw [calculateNewStats_rd, calculateNewStats_vol]
  have hrd : p.rd = (toGlickoScale p).phi * GLICKO_SCALE := by
    show p.rd = p.rd / GLICKO_SCALE * GLICKO_SCALE
    field_simp
  rw [hrd]
  have hsplit : ((toGlickoScale p).phi * GLICKO_SCALE) ^ 2 +
      (GLICKO_SCALE * newSigma_of fuel (toGlickoScale p) (toGlickoScale o) s) ^ 2 =
      GLICKO_SCALE ^ 2 *
        ((toGlickoScale p).phi ^ 2 + newSigma_of fuel (toGlickoScale p) (toGlickoScale o) s ^ 2) := by
    ring
  rw [hsplit, Real.sqrt_mul (by positivity), Real.sqrt_sq hS.le]
  have hlt := newPhi_lt_phiStar fuel (toGlickoScale p) (toGlickoScale o) s
  calc newPhi_of fuel (toGlickoScale p) (toGlickoScale o) s * GLICKO_SCALE
      < phiStar_of fuel (toGlickoScale p) (toGlickoScale o) s * GLICKO_SCALE :=
        mul_lt_mul_of_pos_right hlt hS
    _ = GLICKO_SCALE * Real.sqrt ((toGlickoScale p).phi ^ 2 +
          newSigma_of fuel (toGlickoScale p) (toGlickoScale o) s ^ 2) := by
        rw [phiStar_of]
        ring

lemma illinois_fixed (f : ℝ → ℝ) (fuel : ℕ) (A fA fB : ℝ) :
    illinois f fuel A A fA fB = A := by
  cases fuel with
  | zero => rfl
  | succ n =>
      rw [illinois, if_neg]
      rw [sub_self, abs_zero]
      norm_num

lemma exp_half_sq (t : ℝ) : Real.exp (t / 2) ^ 2 = Real.exp t := by
  rw [sq, ← Real.exp_add, add_halves]


/-- C6 counterexample: both deviations are at least 30, both volatilities
positive, the score is 1, and the update strictly INCREASES the updated
side's deviation. -/
theorem deviation_can_grow_cex :
    30 ≤ volatilePlayer.rd ∧ 30 ≤ wideOpponent.rd ∧
    0 < volatilePlayer.vol ∧ 0 < wideOpponent.vol ∧
    volatilePlayer.rd < (calculateNewStats 100 volatilePlayer wideOpponent 1).rd := by
  set W : ℝ := 1 + 3 * (350 / GLICKO_SCALE) ^ 2 / Real.pi ^ 2 with hWdef
  set X : ℝ := (800 / 9) * W - (30 / GLICKO_SCALE) ^ 2 with hXdef
  clear_value W X
  have hW1 : 1 ≤ W := by
    rw [hWdef]
    exact le_add_of_nonneg_right (by positivity)
  have hW0 : 0 < W := lt_of_lt_of_le one_pos hW1
  have hS : (0:ℝ) < GLICKO_SCALE := GLICKO_SCALE_pos
  have hp1 : (30 / GLICKO_SCALE) ^ 2 ≤ 1 := by
    rw [GLICKO_SCALE]
    norm_num
  have hX87 : 87 ≤ X := by
    have h800 : (800:ℝ) / 9 ≤ 800 / 9 * W := le_mul_of_one_le_right (by norm_num) hW1
    rw [hXdef]
    linarith
  have hX0 : (0:ℝ) < X := by linarith
  have hsp_mu : (toGlickoScale volatilePlayer).mu = 0 := by
    show ((1500:ℝ) - 1500) / GLICKO_SCALE = 0
    norm_num
  have hsp_phi : (toGlickoScale volatilePlayer).phi = 30 / GLICKO_SCALE := rfl
  have hsigma : (toGlickoScale volatilePlayer).sigma = Real.sqrt X := by
    rw [hXdef, hWdef]
    rfl
  have hgj : 0 < g (350 / GLICKO_SCALE) := g_pos _
  have hgj_ne : g (350 / GLICKO_SCALE) ≠ 0 := ne_of_gt hgj
  have hgsq : g (350 / GLICKO_SCALE) ^ 2 = 1 / W := by
    rw [g_sq, ← hWdef]
  have hso_mu : (toGlickoScale wideOpponent).mu =
      Real.log 9 / g (350 / GLICKO_SCALE) := by
    show (1500 + GLICKO_SCALE * (Real.log 9 / g (350 / GLICKO_SCALE)) - 1500) /
      GLICKO_SCALE = _
    field_simp
    ring
  have hso_phi : (toGlickoScale wideOpponent).phi = 350 / GLICKO_SCALE := rfl
  have hE : E (toGlickoScale volatilePlayer).mu (toGlickoScale wideOpponent).mu
      (toGlickoScale wideOpponent).phi = 1 / 10 := by
    rw [E, hsp_mu, hso_mu, hso_phi]
    have harg : -g (350 / GLICKO_SCALE) *
        (0 - Real.log 9 / g (350 / GLICKO_SCALE)) = Real.log 9 := by
      field_simp
    rw [harg, Real.exp_log (by norm_num : (0:ℝ) < 9)]
    norm_num
  have hv : v_of (toGlickoScale volatilePlayer) (toGlickoScale wideOpponent) =
      100 * W / 9 := by
    rw [v_of, hE, hso_phi, hgsq]
    field_simp
    ring
  have hdelta_sq : delta_of (toGlickoScale volatilePlayer)
      (toGlickoScale wideOpponent) 1 ^ 2 = 100 * W := by
    rw [delta_of, hv, hE, hso_phi]
    have hexp : (100 * W / 9 * g (350 / GLICKO_SCALE) * (1 - 1 / 10)) ^ 2 =
        100 * W ^ 2 * g (350 / GLICKO_SCALE) ^ 2 := by
      ring
    rw [hexp, hgsq]
    field_simp
    ring
  have hsigma_sq : (toGlickoScale volatilePlayer).sigma ^ 2 = X := by
    rw [hsigma, Real.sq_sqrt hX0.le]
  have hdisc : delta_of (toGlickoScale volatilePlayer) (toGlickoScale wideOpponent) 1 ^ 2 -
      (toGlickoScale volatilePlayer).phi ^ 2 -
      v_of (toGlickoScale volatilePlayer) (toGlickoScale wideOpponent) = X := by
    rw [hdelta_sq, hv, hsp_phi, hXdef]
    ring
  have hbranch : (toGlickoScale volatilePlayer).phi ^ 2 +
      v_of (toGlickoScale volatilePlayer) (toGlickoScale wideOpponent) <
      delta_of (toGlickoScale volatilePlayer) (toGlickoScale wideOpponent) 1 ^ 2 := by
    have h := hX0
    rw [hXdef] at h
    rw [hdelta_sq, hv, hsp_phi]
    linarith
  have ha : a_of (toGlickoScale volatilePlayer) = Real.log X := by
    rw [a_of, hsigma_sq]
  have hB : B_of 100 (toGlickoScale volatilePlayer) (toGlickoScale wideOpponent) 1 =
      Real.log X := by
    rw [B_of, if_pos hbranch, hdisc]
  have hA : A_of 100 (toGlickoScale volatilePlayer) (toGlickoScale wideOpponent) 1 =
      Real.log X := by
    rw [A_of, hB, ha, illinois_fixed]
  have hns_sq : newSigma_of 100 (toGlickoScale volatilePlayer)
      (toGlickoScale wideOpponent) 1 ^ 2 = X := by
    rw [newSigma_of, hA, exp_half_sq, Real.exp_log hX0]
  have hps_sq : phiStar_of 100 (toGlickoScale volatilePlayer)
      (toGlickoScale wideOpponent) 1 ^ 2 = (30 / GLICKO_SCALE) ^ 2 + X := by
    rw [phiStar_of, Real.sq_sqrt (by positivity), hns_sq, hsp_phi]
  have hv_pos := v_pos (toGlickoScale volatilePlayer) (toGlickoScale wideOpponent)
  have hps_pos := phiStar_pos 100 (toGlickoScale volatilePlayer) (toGlickoScale wideOpponent) 1
  have hq_pos : 0 < 1 / phiStar_of 100 (toGlickoScale volatilePlayer)
      (toGlickoScale wideOpponent) 1 ^ 2 +
      1 / v_of (toGlickoScale volatilePlayer) (toGlickoScale wideOpponent) :=
    add_pos (one_div_pos.mpr (pow_pos hps_pos 2)) (one_div_pos.mpr hv_pos)
  have h1 : 1 / phiStar_of 100 (toGlickoScale volatilePlayer)
      (toGlickoScale wideOpponent) 1 ^ 2 ≤ 1 / 87 := by
    rw [hps_sq]
    have hle : (87:ℝ) ≤ (30 / GLICKO_SCALE) ^ 2 + X := by
      have := sq_nonneg ((30:ℝ) / GLICKO_SCALE)
      linarith
    exact one_div_le_one_div_of_le (by norm_num) hle
  have h2 : 1 / v_of (toGlickoScale volatilePlayer) (toGlickoScale wideOpponent) ≤ 9 / 100 := by
    rw [hv]
    have hge : (100:ℝ) / 9 ≤ 100 * W / 9 := by linarith
    calc 1 / (100 * W / 9) ≤ 1 / ((100:ℝ) / 9) :=
          one_div_le_one_div_of_le (by norm_num) hge
      _ = 9 / 100 := by norm_num
  have hq_up : 1 / phiStar_of 100 (toGlickoScale volatilePlayer)
      (toGlickoScale wideOpponent) 1 ^ 2 +
      1 / v_of (toGlickoScale volatilePlayer) (toGlickoScale wideOpponent) ≤ 883 / 8700 := by
    calc _ ≤ 1 / 87 + 9 / 100 := add_le_add h1 h2
      _ = (883:ℝ) / 8700 := by norm_num
  have hgoal : (30:ℝ) < newPhi_of 100 (toGlickoScale volatilePlayer)
      (toGlickoScale wideOpponent) 1 * GLICKO_SCALE := by
    rw [newPhi_of]
    have hlt : 1 / phiStar_of 100 (toGlickoScale volatilePlayer)
        (toGlickoScale wideOpponent) 1 ^ 2 +
        1 / v_of (toGlickoScale volatilePlayer) (toGlickoScale wideOpponent) <
        (GLICKO_SCALE / 30) ^ 2 := by
      refine lt_of_le_of_lt hq_up ?_
      rw [GLICKO_SCALE]
      norm_num
    have hsqlt : Real.sqrt (1 / phiStar_of 100 (toGlickoScale volatilePlayer)
        (toGlickoScale wideOpponent) 1 ^ 2 +
        1 / v_of (toGlickoScale volatilePlayer) (toGlickoScale wideOpponent)) <
        GLICKO_SCALE / 30 := by
      calc Real.sqrt _ < Real.sqrt ((GLICKO_SCALE / 30) ^ 2) :=
            Real.sqrt_lt_sqrt hq_pos.le hlt
        _ = GLICKO_SCALE / 30 := Real.sqrt_sq (by positivity)
    have hsq_pos : 0 < Real.sqrt (1 / phiStar_of 100 (toGlickoScale volatilePlayer)
        (toGlickoScale wideOpponent) 1 ^ 2 +
        1 / v_of (toGlickoScale volatilePlayer) (toGlickoScale wideOpponent)) :=
      Real.sqrt_pos.mpr hq_pos
    rw [one_div, inv_mul_eq_div, lt_div_iff₀ hsq_pos]
    linarith
  refine ⟨le_rfl, by norm_num [wideOpponent], ?_, by norm_num [wideOpponent], ?_⟩
  · have hvp : volatilePlayer.vol = Real.sqrt X := by
      rw [hXdef, hWdef]
      rfl
    rw [hvp]
    exact Real.sqrt_pos.mpr hX0
  · rw [calculateNewStats_rd]
    exact hgoal

end Rankinator
